import Mathlib

/-!
# queuectl — job store and claim engine, shallowly embedded

This file embeds the core of the `queuectl` job queue (`db.py`,
`worker.py`, `models.py`) in Lean 4 and proves properties of the
embedded operations.

Modelling decisions, matched to the source:

* Timestamps are ISO-8601 UTC strings in the database, compared as
  strings by SQLite; for UTC ISO strings that comparison agrees with
  chronological order, so time is modelled as `Int` with `≤`.
* The `jobs` table is modelled as a `List Job` in rowid (insertion)
  order; `id` is the primary key, so stores reachable by the program
  have pairwise-distinct ids (`Nodup` hypotheses where this matters).
* The `config` table stores TEXT values, but every value written by the
  CLI (`queuectl config set`) is the decimal rendering of a positive
  integer and every reader parses it with `int(...)`; config is
  therefore modelled as a partial map `String → Option Int`.
* SQL three-valued logic: a comparison against a NULL `retry_at`/`run_at`
  is not satisfied, so the `Option Int` comparison returns `false` on
  `none`.
* A `SELECT ... WHERE state = ?` with no ORDER BY returns rows in scan
  order; with this schema (rowid table, `idx_jobs_state` on `state`)
  that is rowid order within the state, i.e. insertion order.
-/

namespace Queuectl

/-- The five job states of `models.JobState`. -/
inductive JobState where
  | pending
  | processing
  | completed
  | failed
  | dead
deriving DecidableEq, Repr

instance : BEq JobState := ⟨fun a b => decide (a = b)⟩

instance : LawfulBEq JobState where
  eq_of_beq h := of_decide_eq_true h
  rfl := by intro a; exact decide_eq_true rfl

/-- One row of the `jobs` table (schema in `db.py`). -/
structure Job where
  id : String
  command : String
  state : JobState
  attempts : Nat
  max_retries : Int
  created_at : Int
  updated_at : Int
  retry_at : Option Int
  run_at : Option Int
  output : Option String
  error : Option String
  priority : Int
  timeout : Int
deriving DecidableEq, Repr

/-- The database: the `jobs` table in rowid order, the `config` table as
a keyed map, and the two rows of the `metrics` table. -/
structure Store where
  jobs : List Job
  config : String → Option Int
  jobs_completed : Nat
  jobs_failed : Nat

/-- `get_config(key, default)` followed by `int(...)`, as done by every
caller in `db.py`. -/
def get_config (s : Store) (key : String) (default : Int) : Int :=
  match s.config key with
  | some v => v
  | none => default

/-- `set_config(key, value)`: `INSERT OR REPLACE` into `config`. -/
def set_config (key : String) (value : Int) (s : Store) : Store :=
  { s with config := fun k => if k = key then some value else s.config k }

/-- `create_job`: inserts a PENDING job with `attempts = 0`,
`max_retries` snapshotted from config (default 3), `created_at` and
`updated_at` set to now, and `run_at` defaulted to now when absent.
Returns `false` (IntegrityError) when the id already exists. -/
def create_job (now : Int) (job_id command : String) (run_at : Option Int)
    (priority timeout : Int) (s : Store) : Bool × Store :=
  let default_retries := get_config s "max_retries" 3
  let effective_run_at := match run_at with
    | some t => t
    | none => now
  if s.jobs.any (fun j => j.id == job_id) then
    (false, s)
  else
    (true, { s with jobs := s.jobs ++ [{
        id := job_id
        command := command
        state := .pending
        attempts := 0
        max_retries := default_retries
        created_at := now
        updated_at := now
        retry_at := none
        run_at := some effective_run_at
        output := none
        error := none
        priority := priority
        timeout := timeout }] })

/-- The eligibility predicate of the claim query in
`worker.find_next_job`: `(state = 'pending' AND run_at <= now) OR
(state = 'failed' AND retry_at <= now)`; a NULL timestamp fails the
comparison. -/
def eligible (now : Int) (j : Job) : Bool :=
  (j.state == .pending &&
    (match j.run_at with
     | some t => decide (t ≤ now)
     | none => false)) ||
  (j.state == .failed &&
    (match j.retry_at with
     | some t => decide (t ≤ now)
     | none => false))

/-- `ORDER BY priority DESC, created_at ASC`: `a` sorts strictly before
`b`. -/
def ordersBefore (a b : Job) : Bool :=
  decide (b.priority < a.priority) ||
  (a.priority == b.priority && decide (a.created_at < b.created_at))

/-- `ORDER BY priority DESC, created_at ASC LIMIT 1` over a list in scan
order: the first row of the list that no later row strictly precedes
(on a full tie SQLite keeps the earlier row in scan order). -/
def selectBest : List Job → Option Job
  | [] => none
  | j :: rest =>
    match selectBest rest with
    | none => some j
    | some b => if ordersBefore b j then some b else some j

/-- The per-row effect of the claiming UPDATE:
`SET state = 'processing', updated_at = now, retry_at = NULL`. -/
def claimUpdate (now : Int) (j : Job) : Job :=
  { j with state := .processing, updated_at := now, retry_at := none }

/-- `worker.find_next_job`: one atomic `UPDATE ... WHERE id = (SELECT
... LIMIT 1) RETURNING ...`. Picks the best eligible row, transitions
it to PROCESSING, and returns the updated row (of which the worker uses
`id`, `command`, `attempts`, `max_retries`, `timeout`); returns `none`
and leaves the store unchanged when no row is eligible. -/
def find_next_job (now : Int) (s : Store) : Option Job × Store :=
  match selectBest (s.jobs.filter (eligible now)) with
  | none => (none, s)
  | some j =>
    (some (claimUpdate now j),
     { s with jobs := s.jobs.map (fun x =>
         if x.id == j.id then claimUpdate now x else x) })

/-- The per-row effect of the failure UPDATE in `record_job_failure`:
`SET state, attempts, updated_at, retry_at, error`. -/
def failUpdate (now : Int) (new_attempts : Nat) (max_retries base : Int)
    (error_output : String) (j : Job) : Job :=
  if (new_attempts : Int) ≥ max_retries then
    { j with state := .dead, attempts := new_attempts, updated_at := now,
             retry_at := none, error := some error_output }
  else
    { j with state := .failed, attempts := new_attempts, updated_at := now,
             retry_at := some (now + base ^ new_attempts),
             error := some error_output }

/-- `db.record_job_failure`: reads `backoff_base` from config (default
2), looks the job up by id — returning before any write when it is
absent — then increments `jobs_failed`, increments `attempts`, stores
the error, and moves the job to DEAD (`retry_at` NULL) when
`new_attempts >= max_retries`, else to FAILED with `retry_at = now +
base ** new_attempts` seconds. -/
def record_job_failure (now : Int) (job_id error_output : String)
    (s : Store) : Store :=
  let base := get_config s "backoff_base" 2
  match s.jobs.find? (fun j => j.id == job_id) with
  | none => s
  | some j =>
    let new_attempts := j.attempts + 1
    { s with
      jobs_failed := s.jobs_failed + 1,
      jobs := s.jobs.map (fun x =>
        if x.id == job_id then
          failUpdate now new_attempts j.max_retries base error_output x
        else x) }

/-- `db.log_job_success`: `UPDATE jobs SET state = 'completed', output,
updated_at WHERE id = ?`, then unconditionally increments the
`jobs_completed` metric (there is no existence check). -/
def log_job_success (now : Int) (job_id output : String) (s : Store) : Store :=
  { s with
    jobs := s.jobs.map (fun x =>
      if x.id == job_id then
        { x with state := .completed, output := some output, updated_at := now }
      else x),
    jobs_completed := s.jobs_completed + 1 }

/-- `db.retry_dead_job`: `UPDATE jobs SET state = 'pending', attempts =
0, updated_at = now, retry_at = NULL WHERE id = ? AND state = 'dead'`;
returns `rowcount > 0`. -/
def retry_dead_job (now : Int) (job_id : String) (s : Store) : Bool × Store :=
  let hit := fun (x : Job) => x.id == job_id && x.state == .dead
  let rowcount := s.jobs.countP hit
  (decide (rowcount > 0),
   { s with jobs := s.jobs.map (fun x =>
       if hit x then
         { x with state := .pending, attempts := 0, updated_at := now,
                  retry_at := none }
       else x) })

/-- The columns projected by `list_jobs_by_state`'s SELECT. -/
structure JobView where
  id : String
  command : String
  state : JobState
  attempts : Nat
  created_at : Int
  updated_at : Int
  output : Option String
  error : Option String
deriving DecidableEq, Repr

/-- Projection of a `jobs` row onto the selected columns. -/
def jobView (j : Job) : JobView :=
  { id := j.id, command := j.command, state := j.state,
    attempts := j.attempts, created_at := j.created_at,
    updated_at := j.updated_at, output := j.output, error := j.error }

/-- `db.list_jobs_by_state`: `SELECT id, command, state, attempts,
created_at, updated_at, output, error FROM jobs WHERE state = ?` with no
ORDER BY; rows come back in scan order, which for this schema is rowid
(insertion) order within the state. -/
def list_jobs_by_state (state : JobState) (s : Store) : List JobView :=
  (s.jobs.filter (fun j => j.state == state)).map jobView

/-- Outcome of running a shell command, as observed by
`worker.execute_job` through `subprocess.run`: normal exit with a code
and captured stdout/stderr, `subprocess.TimeoutExpired`, or any other
execution exception. -/
inductive ExecOutcome where
  | exited (code : Int) (stdout stderr : String)
  | timedOut
  | execError (msg : String)
deriving DecidableEq, Repr

/-- `worker.JobResult`: the three-field result of `execute_job`. -/
structure JobResult where
  success : Bool
  output : String
  error : String
deriving DecidableEq, Repr

/-- The error message synthesized on `subprocess.TimeoutExpired`. -/
def timeoutMessage (timeout : Int) : String :=
  "Job timed out after " ++ toString timeout ++ " seconds."

/-- `worker.execute_job`: trims stdout/stderr, reports success iff the
exit status is 0; on timeout returns a failure with empty output and the
synthesized timeout message; on any other exception a failure with empty
output and an execution-error message. -/
def execute_job (timeout : Int) (outcome : ExecOutcome) : JobResult :=
  match outcome with
  | .exited code stdout stderr =>
    if code == 0 then
      { success := true, output := stdout.trim, error := stderr.trim }
    else
      { success := false, output := stdout.trim, error := stderr.trim }
  | .timedOut =>
    { success := false, output := "",
      error := timeoutMessage timeout }
  | .execError msg =>
    { success := false, output := "",
      error := "An error occurred during command execution: " ++ msg }

/-- One iteration of `Worker.run`: claim the next job (at time
`nowClaim`); if one is returned, execute its command (`exec` abstracts
the command-execution facility) and report the outcome at time
`nowDone` via `log_job_success` or `record_job_failure`; otherwise sleep
and leave the store as is. -/
def worker_step (nowClaim nowDone : Int) (exec : String → Int → ExecOutcome)
    (s : Store) : Store :=
  match find_next_job nowClaim s with
  | (none, s') => s'
  | (some job, s') =>
    let result := execute_job job.timeout (exec job.command job.timeout)
    if result.success then
      log_job_success nowDone job.id result.output s'
    else
      record_job_failure nowDone job.id result.error s'

/-! ## Helper lemmas -/

theorem ordersBefore_irrefl (a : Job) : ordersBefore a a = false := by
  simp [ordersBefore]

theorem ordersBefore_asymm (a b : Job) (h : ordersBefore a b = true) :
    ordersBefore b a = false := by
  simp [ordersBefore] at h ⊢
  omega

theorem ordersBefore_negtrans (a b c : Job)
    (h1 : ordersBefore a b = false) (h2 : ordersBefore b c = false) :
    ordersBefore a c = false := by
  simp [ordersBefore] at h1 h2 ⊢
  omega

theorem selectBest_mem : ∀ (l : List Job) (j : Job), selectBest l = some j → j ∈ l := by
  intro l
  induction l with
  | nil => intro j h; simp [selectBest] at h
  | cons x rest ih =>
    intro j h
    cases hrest : selectBest rest with
    | none =>
      simp only [selectBest, hrest] at h
      simp at h
      simp [h]
    | some b =>
      simp only [selectBest, hrest] at h
      by_cases hb : ordersBefore b x = true
      · rw [if_pos hb] at h
        simp at h
        exact List.mem_cons_of_mem x (ih j (h ▸ hrest))
      · rw [if_neg hb] at h
        simp at h
        simp [h]

theorem selectBest_eq_none (l : List Job) : selectBest l = none ↔ l = [] := by
  cases l with
  | nil => simp [selectBest]
  | cons x rest =>
    cases hrest : selectBest rest with
    | none => simp [selectBest, hrest]
    | some b =>
      simp only [selectBest, hrest]
      by_cases hb : ordersBefore b x = true
      · rw [if_pos hb]; simp
      · rw [if_neg hb]; simp

theorem selectBest_not_beaten : ∀ (l : List Job) (j : Job), selectBest l = some j →
    ∀ k ∈ l, ordersBefore k j = false := by
  intro l
  induction l with
  | nil => intro j h; simp [selectBest] at h
  | cons x rest ih =>
    intro j h k hk
    cases hrest : selectBest rest with
    | none =>
      simp only [selectBest, hrest] at h
      simp at h
      have : rest = [] := (selectBest_eq_none rest).mp hrest
      subst this
      simp at hk
      subst hk
      rw [← h]
      exact ordersBefore_irrefl _
    | some b =>
      simp only [selectBest, hrest] at h
      by_cases hb : ordersBefore b x = true
      · rw [if_pos hb] at h
        simp at h
        rcases List.mem_cons.mp hk with hk | hk
        · subst hk
          exact h ▸ ordersBefore_asymm _ _ hb
        · exact ih j (h ▸ hrest) k hk
      · rw [if_neg hb] at h
        simp at h
        rcases List.mem_cons.mp hk with hk | hk
        · subst hk
          rw [← h]
          exact ordersBefore_irrefl _
        · have hkb := ih b hrest k hk
          have hbj : ordersBefore b j = false := by
            rw [← h]
            exact Bool.eq_false_iff.mpr (fun hc => hb hc)
          exact ordersBefore_negtrans k b j hkb hbj

/-- `find?` commutes with a map that does not change which rows match. -/
theorem find?_map_comm (l : List Job) (f : Job → Job) (q : Job → Bool)
    (hq : ∀ x, q (f x) = q x) :
    (l.map f).find? q = Option.map f (l.find? q) := by
  induction l with
  | nil => simp
  | cons x rest ih =>
    by_cases hx : q x = true
    · simp [List.find?_cons, hq, hx]
    · have hx' : q x = false := Bool.eq_false_iff.mpr hx
      simp [List.find?_cons, hq, hx', ih]

/-- With pairwise-distinct ids (the primary-key invariant), the lookup
by a member's id finds exactly that member. -/
theorem find?_id_of_mem (l : List Job) (j : Job)
    (hn : (l.map Job.id).Nodup) (hj : j ∈ l) :
    l.find? (fun x => x.id == j.id) = some j := by
  induction l with
  | nil => simp at hj
  | cons x rest ih =>
    simp only [List.map_cons, List.nodup_cons] at hn
    rcases List.mem_cons.mp hj with hj | hj
    · subst hj
      simp [List.find?_cons]
    · have hne : x.id ≠ j.id := by
        intro hc
        exact hn.1 (hc ▸ List.mem_map_of_mem Job.id hj)
      have : (x.id == j.id) = false := beq_eq_false_iff_ne.mpr hne
      simp [List.find?_cons, this]
      exact ih hn.2 hj

/-- With pairwise-distinct ids, two members sharing an id are equal. -/
theorem eq_of_mem_of_id_eq (l : List Job) (x y : Job)
    (hn : (l.map Job.id).Nodup) (hx : x ∈ l) (hy : y ∈ l)
    (hid : x.id = y.id) : x = y := by
  induction l with
  | nil => simp at hx
  | cons z rest ih =>
    simp only [List.map_cons, List.nodup_cons] at hn
    rcases List.mem_cons.mp hx with hx | hx <;>
      rcases List.mem_cons.mp hy with hy | hy
    · rw [hx, hy]
    · exact absurd (hid ▸ List.mem_map_of_mem Job.id hy) (hx ▸ hn.1)
    · exact absurd (hid ▸ List.mem_map_of_mem Job.id hx) (by rw [hy]; exact hn.1)
    · exact ih hn.2 hx hy

theorem map_id_of_not_hit (l : List Job) (p : Job → Bool) (g : Job → Job)
    (h : ∀ x ∈ l, p x = false) :
    l.map (fun x => if p x then g x else x) = l := by
  induction l with
  | nil => simp
  | cons x rest ih =>
    simp only [List.map_cons]
    rw [h x (List.mem_cons_self x rest)]
    simp only [Bool.false_eq_true, if_false, List.cons.injEq, true_and]
    exact ih (fun y hy => h y (List.mem_cons_of_mem x hy))

/-! ## C1: the claim operation -/

/-- C1: `claimNext(now)` selects from exactly the union of PENDING jobs
with `run_at <= now` and FAILED jobs with `retry_at <= now`; among those
it returns a job of maximal priority, breaking priority ties by earliest
`created_at`, and in the same atomic step sets that job's state to
PROCESSING, clears `retry_at`, and sets `updated_at` to now; if no job
is eligible it returns absence without error and changes nothing. -/
theorem claimNext_correct (s : Store) (now : Int) :
    ((find_next_job now s).1 = none →
      (find_next_job now s).2 = s ∧ ∀ j ∈ s.jobs, eligible now j = false) ∧
    (∀ r, (find_next_job now s).1 = some r →
      ∃ j0, j0 ∈ s.jobs ∧ eligible now j0 = true ∧
        r = claimUpdate now j0 ∧
        r.state = .processing ∧ r.retry_at = none ∧ r.updated_at = now ∧
        (∀ k ∈ s.jobs, eligible now k = true →
          k.priority ≤ j0.priority ∧
          (k.priority = j0.priority → j0.created_at ≤ k.created_at)) ∧
        (find_next_job now s).2.jobs =
          s.jobs.map (fun x => if x.id == j0.id then claimUpdate now x else x) ∧
        (find_next_job now s).2.config = s.config ∧
        (find_next_job now s).2.jobs_completed = s.jobs_completed ∧
        (find_next_job now s).2.jobs_failed = s.jobs_failed) := by
  constructor
  · intro hnone
    cases hsel : selectBest (s.jobs.filter (eligible now)) with
    | some j =>
      have hx : (find_next_job now s).1 = some (claimUpdate now j) := by
        unfold find_next_job; rw [hsel]
      rw [hx] at hnone
      simp at hnone
    | none =>
      have heq : find_next_job now s = (none, s) := by
        unfold find_next_job; rw [hsel]
      rw [heq]
      refine ⟨rfl, ?_⟩
      have hempty : ∀ a ∈ s.jobs, ¬ eligible now a = true := by
        have := (selectBest_eq_none _).mp hsel
        intro a ha
        intro hc
        have : a ∈ s.jobs.filter (eligible now) := List.mem_filter.mpr ⟨ha, hc⟩
        rw [(selectBest_eq_none _).mp hsel] at this
        simp at this
      intro j hj
      exact Bool.eq_false_iff.mpr (hempty j hj)
  · intro r hr
    cases hsel : selectBest (s.jobs.filter (eligible now)) with
    | none =>
      have hx : (find_next_job now s).1 = none := by
        unfold find_next_job; rw [hsel]
      rw [hx] at hr
      simp at hr
    | some j0 =>
      have heq : find_next_job now s =
          (some (claimUpdate now j0),
           { s with jobs := s.jobs.map (fun x =>
               if x.id == j0.id then claimUpdate now x else x) }) := by
        unfold find_next_job; rw [hsel]
      rw [heq] at hr
      simp at hr
      have hmem := selectBest_mem _ _ hsel
      have hmem' := List.mem_filter.mp hmem
      refine ⟨j0, hmem'.1, hmem'.2, hr.symm, ?_, ?_, ?_, ?_, ?_, ?_, ?_, ?_⟩
      · rw [← hr]; rfl
      · rw [← hr]; rfl
      · rw [← hr]; rfl
      · intro k hk hkel
        have hkf : k ∈ s.jobs.filter (eligible now) := List.mem_filter.mpr ⟨hk, hkel⟩
        have := selectBest_not_beaten _ _ hsel k hkf
        simp [ordersBefore] at this
        omega
      · rw [heq]
      · rw [heq]
      · rw [heq]
      · rw [heq]

/-! ## Concrete fixtures for witnesses and counterexamples -/

/-- A freshly created pending job, as `create_job` would insert it. -/
def J1 : Job :=
  { id := "j1", command := "echo hi", state := .pending, attempts := 0,
    max_retries := 3, created_at := 0, updated_at := 0, retry_at := none,
    run_at := some 0, output := none, error := none, priority := 0, timeout := 60 }

/-- A store holding only `J1`, with empty config and zeroed metrics. -/
def S1 : Store :=
  { jobs := [J1], config := fun _ => none, jobs_completed := 0, jobs_failed := 0 }

/-- A store with no jobs at all. -/
def S0 : Store :=
  { jobs := [], config := fun _ => none, jobs_completed := 0, jobs_failed := 0 }

/-! ## C2: failure recording and backoff -/

theorem failUpdate_id (now : Int) (k : Nat) (m b : Int) (e : String) (x : Job) :
    (failUpdate now k m b e x).id = x.id := by
  unfold failUpdate
  split <;> rfl

/-- Shared helper: the effect of `record_job_failure` on the row found
for the given id. -/
theorem record_job_failure_find? (s : Store) (now : Int) (job_id err : String) (j : Job)
    (hfind : s.jobs.find? (fun x => x.id == job_id) = some j) :
    (record_job_failure now job_id err s).jobs.find? (fun x => x.id == job_id) =
      some (failUpdate now (j.attempts + 1) j.max_retries
        (get_config s "backoff_base" 2) err j) := by
  have hpred : (j.id == job_id) = true := by
    have := List.find?_some hfind
    simpa using this
  have hq : ∀ x : Job,
      ((if x.id == job_id then
          failUpdate now (j.attempts + 1) j.max_retries
            (get_config s "backoff_base" 2) err x
        else x).id == job_id) = (x.id == job_id) := by
    intro x
    split
    · rw [failUpdate_id]
    · rfl
  have hmap : (record_job_failure now job_id err s).jobs =
      s.jobs.map (fun x => if x.id == job_id then
        failUpdate now (j.attempts + 1) j.max_retries
          (get_config s "backoff_base" 2) err x else x) := by
    simp only [record_job_failure, hfind]
  rw [hmap, find?_map_comm _ _ _ hq, hfind]
  simp only [Option.map_some']
  rw [if_pos hpred]

/-- C2: for an existing job with `attempts = a` and snapshotted
`max_retries`, `recordFailure` increments attempts to `k = a + 1`,
stores the error text, increments `jobs_failed`, and moves the job to
DEAD with `retry_at` cleared when `k >= max_retries`, else to FAILED
with `retry_at = now + backoff_base ** k` seconds; the DEAD threshold is
the job's own `max_retries` snapshot, unaffected by the current global
`max_retries` config. -/
theorem record_job_failure_spec (s : Store) (now : Int) (job_id err : String) (j : Job)
    (hfind : s.jobs.find? (fun x => x.id == job_id) = some j) :
    (record_job_failure now job_id err s).jobs_failed = s.jobs_failed + 1 ∧
    (record_job_failure now job_id err s).jobs_completed = s.jobs_completed ∧
    ((↑(j.attempts + 1) : Int) ≥ j.max_retries →
      (record_job_failure now job_id err s).jobs.find? (fun x => x.id == job_id) =
        some { j with state := .dead, attempts := j.attempts + 1, updated_at := now,
                      retry_at := none, error := some err }) ∧
    ((↑(j.attempts + 1) : Int) < j.max_retries →
      (record_job_failure now job_id err s).jobs.find? (fun x => x.id == job_id) =
        some { j with state := .failed, attempts := j.attempts + 1, updated_at := now,
                      retry_at := some (now + get_config s "backoff_base" 2 ^ (j.attempts + 1)),
                      error := some err }) ∧
    (∀ v : Int, (record_job_failure now job_id err (set_config "max_retries" v s)).jobs =
        (record_job_failure now job_id err s).jobs) := by
  have hfind' := record_job_failure_find? s now job_id err j hfind
  refine ⟨?_, ?_, ?_, ?_, ?_⟩
  · simp only [record_job_failure, hfind]
  · simp only [record_job_failure, hfind]
  · intro hge
    rw [hfind']
    unfold failUpdate
    rw [if_pos hge]
  · intro hlt
    rw [hfind']
    unfold failUpdate
    rw [if_neg (not_le.mpr hlt)]
  · intro v
    have hcfg : get_config (set_config "max_retries" v s) "backoff_base" 2 =
        get_config s "backoff_base" 2 := by
      simp only [get_config, set_config]
      rw [if_neg (by decide : ¬ "backoff_base" = "max_retries")]
    have hjobs : (set_config "max_retries" v s).jobs = s.jobs := rfl
    simp only [record_job_failure, hjobs, hfind, hcfg]

/-- Witness for C2 at a concrete store: one pending job `j1` with
`attempts = 0` and `max_retries = 3`. -/
theorem record_job_failure_spec_witness :
    S1.jobs.find? (fun x => x.id == "j1") = some J1 ∧
    ((record_job_failure 5 "j1" "boom" S1).jobs_failed = S1.jobs_failed + 1 ∧
     (record_job_failure 5 "j1" "boom" S1).jobs_completed = S1.jobs_completed ∧
     ((↑(J1.attempts + 1) : Int) ≥ J1.max_retries →
       (record_job_failure 5 "j1" "boom" S1).jobs.find? (fun x => x.id == "j1") =
         some { J1 with state := .dead, attempts := J1.attempts + 1, updated_at := 5,
                        retry_at := none, error := some "boom" }) ∧
     ((↑(J1.attempts + 1) : Int) < J1.max_retries →
       (record_job_failure 5 "j1" "boom" S1).jobs.find? (fun x => x.id == "j1") =
         some { J1 with state := .failed, attempts := J1.attempts + 1, updated_at := 5,
                        retry_at := some (5 + get_config S1 "backoff_base" 2 ^ (J1.attempts + 1)),
                        error := some "boom" }) ∧
     (∀ v : Int, (record_job_failure 5 "j1" "boom" (set_config "max_retries" v S1)).jobs =
         (record_job_failure 5 "j1" "boom" S1).jobs)) :=
  ⟨by decide, record_job_failure_spec S1 5 "j1" "boom" J1 (by decide)⟩

/-! ## C4: behaviour on an absent id -/

/-- C4 counterexample: on a store with no jobs at all, `recordSuccess`
for the absent id `"ghost"` still increments the `jobs_completed`
metric, so it is not a complete no-op. -/
theorem log_job_success_notfound_cex :
    S0.jobs.find? (fun x => x.id == "ghost") = none ∧
    S0.jobs_completed = 0 ∧
    (log_job_success 0 "ghost" "out" S0).jobs_completed = 1 := by
  refine ⟨rfl, rfl, rfl⟩

/-- C4 amended: `recordFailure` on an absent id is a complete no-op
(store and both metrics unchanged, no error); `recordSuccess` on an
absent id leaves every job row, `jobs_failed` and the config unchanged
and raises no error, but still increments `jobs_completed` by one. -/
theorem notfound_amended (s : Store) (now : Int) (job_id out err : String)
    (habs : s.jobs.find? (fun x => x.id == job_id) = none) :
    record_job_failure now job_id err s = s ∧
    (log_job_success now job_id out s).jobs = s.jobs ∧
    (log_job_success now job_id out s).jobs_failed = s.jobs_failed ∧
    (log_job_success now job_id out s).config = s.config ∧
    (log_job_success now job_id out s).jobs_completed = s.jobs_completed + 1 := by
  have habs' : ∀ x ∈ s.jobs, (x.id == job_id) = false := by
    intro x hx
    have := List.find?_eq_none.mp habs x hx
    exact Bool.eq_false_iff.mpr this
  refine ⟨?_, ?_, rfl, rfl, rfl⟩
  · simp only [record_job_failure, habs]
  · simp only [log_job_success]
    exact map_id_of_not_hit _ _ _ habs'

/-- Witness for C4 at the empty store. -/
theorem notfound_amended_witness :
    S0.jobs.find? (fun x => x.id == "ghost") = none ∧
    (record_job_failure 3 "ghost" "e" S0 = S0 ∧
     (log_job_success 3 "ghost" "o" S0).jobs = S0.jobs ∧
     (log_job_success 3 "ghost" "o" S0).jobs_failed = S0.jobs_failed ∧
     (log_job_success 3 "ghost" "o" S0).config = S0.config ∧
     (log_job_success 3 "ghost" "o" S0).jobs_completed = S0.jobs_completed + 1) :=
  ⟨by decide, notfound_amended S0 3 "ghost" "o" "e" (by decide)⟩

/-! ## C7: command execution and failure routing -/

/-- C7: command execution returns a three-field result whose success
flag is true iff the exit status is 0, with stdout and stderr trimmed of
surrounding whitespace; on timeout the result is a failure with empty
output and the synthesized timeout message; and the worker routes every
unsuccessful result — timeout included — through `recordFailure` with
the result's error text, exactly as it does an exit-code failure. -/
theorem execute_job_spec (timeout code : Int) (stdout stderr : String) :
    ((execute_job timeout (.exited code stdout stderr)).success = true ↔ code = 0) ∧
    (execute_job timeout (.exited code stdout stderr)).output = stdout.trim ∧
    (execute_job timeout (.exited code stdout stderr)).error = stderr.trim ∧
    (execute_job timeout .timedOut =
      { success := false, output := "", error := timeoutMessage timeout }) ∧
    (∀ (s s' : Store) (t1 t2 : Int) (exec : String → Int → ExecOutcome) (job : Job),
      find_next_job t1 s = (some job, s') →
      (execute_job job.timeout (exec job.command job.timeout)).success = false →
      worker_step t1 t2 exec s =
        record_job_failure t2 job.id
          (execute_job job.timeout (exec job.command job.timeout)).error s') := by
  refine ⟨?_, ?_, ?_, rfl, ?_⟩
  · by_cases h : code = 0 <;> simp [execute_job, h]
  · by_cases h : code = 0 <;> simp [execute_job, h]
  · by_cases h : code = 0 <;> simp [execute_job, h]
  · intro s s' t1 t2 exec job hfj hfail
    simp only [worker_step, hfj, hfail]
    simp [hfail]

/-! ## C6 and C10: the DLQ retry operation -/

/-- A dead job, as left behind after exhausting its retries. -/
def Jdead : Job :=
  { id := "jd", command := "notarealcommand", state := .dead, attempts := 3,
    max_retries := 3, created_at := 0, updated_at := 9, retry_at := none,
    run_at := some 0, output := none, error := some "command not found",
    priority := 2, timeout := 60 }

/-- A store holding only the dead job `Jdead`. -/
def Sdead : Store :=
  { jobs := [Jdead], config := fun _ => none, jobs_completed := 0, jobs_failed := 3 }

/-- C6: `retryDead(id)` returns true iff a job with that id exists in
state DEAD, in which case that job becomes PENDING with `attempts`
reset to 0 and `retry_at` cleared; when the job is absent or in any
non-DEAD state it returns false and changes nothing. -/
theorem retry_dead_job_spec (s : Store) (now : Int) (job_id : String)
    (hn : (s.jobs.map Job.id).Nodup) :
    ((retry_dead_job now job_id s).1 = true ↔
      ∃ j, j ∈ s.jobs ∧ j.id = job_id ∧ j.state = JobState.dead) ∧
    ((retry_dead_job now job_id s).1 = false → (retry_dead_job now job_id s).2 = s) ∧
    (∀ j, j ∈ s.jobs → j.id = job_id → j.state = JobState.dead →
      (retry_dead_job now job_id s).2.jobs.find? (fun x => x.id == job_id) =
        some { j with state := .pending, attempts := 0, updated_at := now,
                      retry_at := none }) := by
  refine ⟨?_, ?_, ?_⟩
  · simp only [retry_dead_job, decide_eq_true_eq, gt_iff_lt, List.countP_pos_iff,
      Bool.and_eq_true, beq_iff_eq]
  · intro hfalse
    simp only [retry_dead_job, decide_eq_false_iff_not] at hfalse
    have h0 : s.jobs.countP (fun x => x.id == job_id && x.state == JobState.dead) = 0 := by
      omega
    have hnp : ∀ x ∈ s.jobs, (x.id == job_id && x.state == JobState.dead) = false := by
      intro x hx
      exact Bool.eq_false_iff.mpr (List.countP_eq_zero.mp h0 x hx)
    show { s with jobs := _ } = s
    rw [map_id_of_not_hit _ _ _ hnp]
  · intro j hj hid hdead
    have hq : ∀ x : Job,
        ((if x.id == job_id && x.state == JobState.dead then
            { x with state := JobState.pending, attempts := 0, updated_at := now,
                     retry_at := none }
          else x).id == job_id) = (x.id == job_id) := by
      intro x
      split <;> rfl
    have hjobs : (retry_dead_job now job_id s).2.jobs =
        s.jobs.map (fun x => if x.id == job_id && x.state == JobState.dead then
          { x with state := JobState.pending, attempts := 0, updated_at := now,
                   retry_at := none }
        else x) := rfl
    have hfind : s.jobs.find? (fun x => x.id == job_id) = some j := by
      have := find?_id_of_mem s.jobs j hn hj
      rwa [hid] at this
    rw [hjobs, find?_map_comm _ _ _ hq, hfind]
    simp only [Option.map_some']
    rw [if_pos (by simp [hid, hdead])]

/-- Witness for C6 at a concrete store holding one dead job. -/
theorem retry_dead_job_spec_witness :
    ((Sdead.jobs.map Job.id).Nodup) ∧
    (((retry_dead_job 20 "jd" Sdead).1 = true ↔
       ∃ j, j ∈ Sdead.jobs ∧ j.id = "jd" ∧ j.state = JobState.dead) ∧
     ((retry_dead_job 20 "jd" Sdead).1 = false → (retry_dead_job 20 "jd" Sdead).2 = Sdead) ∧
     (∀ j, j ∈ Sdead.jobs → j.id = "jd" → j.state = JobState.dead →
       (retry_dead_job 20 "jd" Sdead).2.jobs.find? (fun x => x.id == "jd") =
         some { j with state := .pending, attempts := 0, updated_at := 20,
                       retry_at := none })) :=
  ⟨by decide, retry_dead_job_spec Sdead 20 "jd" (by decide)⟩

/-- C10: a `retryDead` write touches only `state`, `attempts`,
`updated_at` and `retry_at`: row for row, `id`, `command`, `priority`,
`timeout`, `max_retries`, `created_at`, `run_at`, `output` and `error`
are unchanged — in particular the final error text is preserved and the
original `run_at` survives to gate re-admission; rows that are not the
targeted DEAD job are untouched entirely, and the targeted row ends up
PENDING with `attempts = 0` and `retry_at` cleared. -/
theorem retry_dead_job_frame (s : Store) (now : Int) (job_id : String) :
    List.Forall₂ (fun x y =>
        (y.id = x.id ∧ y.command = x.command ∧ y.priority = x.priority ∧
         y.timeout = x.timeout ∧ y.max_retries = x.max_retries ∧
         y.created_at = x.created_at ∧ y.run_at = x.run_at ∧
         y.output = x.output ∧ y.error = x.error) ∧
        (¬(x.id = job_id ∧ x.state = JobState.dead) → y = x) ∧
        (x.id = job_id → x.state = JobState.dead →
          y.state = JobState.pending ∧ y.attempts = 0 ∧ y.retry_at = none ∧
          y.updated_at = now))
      s.jobs (retry_dead_job now job_id s).2.jobs := by
  have hjobs : (retry_dead_job now job_id s).2.jobs =
      s.jobs.map (fun x => if x.id == job_id && x.state == JobState.dead then
        { x with state := JobState.pending, attempts := 0, updated_at := now,
                 retry_at := none }
      else x) := rfl
  rw [hjobs, List.forall₂_map_right_iff, List.forall₂_same]
  intro x hx
  by_cases h : (x.id == job_id && x.state == JobState.dead) = true
  · rw [if_pos h]
    simp only [Bool.and_eq_true, beq_iff_eq] at h
    refine ⟨⟨rfl, rfl, rfl, rfl, rfl, rfl, rfl, rfl, rfl⟩, ?_, ?_⟩
    · intro hc
      exact absurd ⟨h.1, h.2⟩ hc
    · intro _ _
      exact ⟨rfl, rfl, rfl, rfl⟩
  · rw [if_neg h]
    simp only [Bool.and_eq_true, beq_iff_eq] at h
    refine ⟨⟨rfl, rfl, rfl, rfl, rfl, rfl, rfl, rfl, rfl⟩, fun _ => rfl, ?_⟩
    intro h1 h2
    exact absurd ⟨h1, h2⟩ h

/-! ## C8: listing by state -/

/-- C8: `listByState(state)` returns exactly the rows whose state equals
the requested one — projected onto the selected columns — as a
subsequence of the table in insertion (creation) order, one row per
matching job. -/
theorem list_jobs_by_state_spec (state : JobState) (s : Store) :
    List.Sublist (list_jobs_by_state state s) (s.jobs.map jobView) ∧
    (∀ v, v ∈ list_jobs_by_state state s ↔
      ∃ j, j ∈ s.jobs ∧ j.state = state ∧ v = jobView j) ∧
    (list_jobs_by_state state s).length =
      s.jobs.countP (fun j => j.state == state) := by
  refine ⟨?_, ?_, ?_⟩
  · exact List.Sublist.map _ (List.filter_sublist _)
  · intro v
    simp only [list_jobs_by_state, List.mem_map, List.mem_filter, beq_iff_eq]
    constructor
    · rintro ⟨j, ⟨hj, hst⟩, hv⟩
      exact ⟨j, hj, hst, hv.symm⟩
    · rintro ⟨j, hj, hst, hv⟩
      exact ⟨j, ⟨hj, hst⟩, hv.symm⟩
  · simp [list_jobs_by_state, List.countP_eq_length_filter]

/-! ## C9: config dynamics of the backoff base -/

/-- C9: the backoff base is read from the Config Store at the moment
each failure is recorded (default 2 when the key is unset), so an
administrative `backoff_base` change alters the retry delays of an
existing job's subsequent failures; the DEAD threshold instead keeps
using the job's own `max_retries` snapshot — changing the global
`max_retries` key has no effect on the failure transition. -/
theorem backoff_base_read_at_failure (s : Store) (now : Int) (job_id err : String)
    (j : Job) (b : Int)
    (hfind : s.jobs.find? (fun x => x.id == job_id) = some j)
    (hlt : (↑(j.attempts + 1) : Int) < j.max_retries) :
    ((record_job_failure now job_id err (set_config "backoff_base" b s)).jobs.find?
        (fun x => x.id == job_id) =
      some { j with state := .failed, attempts := j.attempts + 1, updated_at := now,
                    retry_at := some (now + b ^ (j.attempts + 1)), error := some err }) ∧
    (s.config "backoff_base" = none →
      (record_job_failure now job_id err s).jobs.find? (fun x => x.id == job_id) =
        some { j with state := .failed, attempts := j.attempts + 1, updated_at := now,
                      retry_at := some (now + 2 ^ (j.attempts + 1)), error := some err }) ∧
    (∀ v : Int,
      (record_job_failure now job_id err (set_config "max_retries" v s)).jobs =
        (record_job_failure now job_id err s).jobs ∧
      (record_job_failure now job_id err (set_config "max_retries" v s)).jobs_failed =
        (record_job_failure now job_id err s).jobs_failed) := by
  refine ⟨?_, ?_, ?_⟩
  · have hfind2 : (set_config "backoff_base" b s).jobs.find? (fun x => x.id == job_id) =
        some j := hfind
    rw [record_job_failure_find? (set_config "backoff_base" b s) now job_id err j hfind2]
    have hb : get_config (set_config "backoff_base" b s) "backoff_base" 2 = b := by
      simp [get_config, set_config]
    rw [hb]
    unfold failUpdate
    rw [if_neg (not_le.mpr hlt)]
  · intro hnone
    rw [record_job_failure_find? s now job_id err j hfind]
    have hb : get_config s "backoff_base" 2 = 2 := by
      simp [get_config, hnone]
    rw [hb]
    unfold failUpdate
    rw [if_neg (not_le.mpr hlt)]
  · intro v
    constructor <;> simp [record_job_failure, set_config, get_config, hfind]

/-- Witness for C9 at a concrete store: `J1` has `attempts = 0`,
`max_retries = 3`, and the base is set to 5. -/
theorem backoff_base_read_at_failure_witness :
    S1.jobs.find? (fun x => x.id == "j1") = some J1 ∧
    (↑(J1.attempts + 1) : Int) < J1.max_retries ∧
    (((record_job_failure 7 "j1" "boom" (set_config "backoff_base" 5 S1)).jobs.find?
        (fun x => x.id == "j1") =
      some { J1 with state := .failed, attempts := J1.attempts + 1, updated_at := 7,
                     retry_at := some (7 + 5 ^ (J1.attempts + 1)), error := some "boom" }) ∧
    (S1.config "backoff_base" = none →
      (record_job_failure 7 "j1" "boom" S1).jobs.find? (fun x => x.id == "j1") =
        some { J1 with state := .failed, attempts := J1.attempts + 1, updated_at := 7,
                       retry_at := some (7 + 2 ^ (J1.attempts + 1)), error := some "boom" }) ∧
    (∀ v : Int,
      (record_job_failure 7 "j1" "boom" (set_config "max_retries" v S1)).jobs =
        (record_job_failure 7 "j1" "boom" S1).jobs ∧
      (record_job_failure 7 "j1" "boom" (set_config "max_retries" v S1)).jobs_failed =
        (record_job_failure 7 "j1" "boom" S1).jobs_failed)) :=
  ⟨by decide, by decide,
   backoff_base_read_at_failure S1 7 "j1" "boom" J1 5 (by decide) (by decide)⟩

/-! ## C3: permanence of terminal states -/

theorem eligible_state (now : Int) (j : Job) (h : eligible now j = true) :
    j.state = JobState.pending ∨ j.state = JobState.failed := by
  simp only [eligible, Bool.or_eq_true, Bool.and_eq_true, beq_iff_eq] at h
  rcases h with ⟨h1, _⟩ | ⟨h1, _⟩
  · exact Or.inl h1
  · exact Or.inr h1

/-- A completed job that finished successfully. -/
def Jdone : Job :=
  { id := "jc", command := "echo ok", state := .completed, attempts := 0,
    max_retries := 3, created_at := 0, updated_at := 4, retry_at := none,
    run_at := some 0, output := some "ok", error := none, priority := 0,
    timeout := 60 }

/-- A store holding only the completed job `Jdone`. -/
def Sdone : Store :=
  { jobs := [Jdone], config := fun _ => none, jobs_completed := 1, jobs_failed := 0 }

/-- C3 counterexample: neither `log_job_success` nor
`record_job_failure` checks the current state. On the store holding only
the DEAD job `jd`, `recordSuccess("jd", ...)` rewrites it to COMPLETED;
on the store holding only the COMPLETED job `jc`,
`recordFailure("jc", ...)` reverts it to FAILED. So DEAD is written to
without a `retryDead`, and COMPLETED is reverted. -/
theorem terminal_states_cex :
    Sdead.jobs.map Job.state = [JobState.dead] ∧
    (log_job_success 21 "jd" "late" Sdead).jobs.map Job.state = [JobState.completed] ∧
    Sdone.jobs.map Job.state = [JobState.completed] ∧
    (record_job_failure 21 "jc" "late-err" Sdone).jobs.map Job.state =
      [JobState.failed] := by
  refine ⟨rfl, rfl, rfl, ?_⟩
  decide

/-- C3 amended: COMPLETED and DEAD are permanent with respect to the
claim engine — `claimNext` never selects, returns, or modifies such a
job — and `retryDead` changes only DEAD jobs (on a COMPLETED job it
returns false and changes nothing); but `recordSuccess` and
`recordFailure` do not check the current state: `recordSuccess` sets any
existing job, DEAD included, to COMPLETED, and `recordFailure` moves any
existing job, COMPLETED included, to FAILED or DEAD while incrementing
its attempts. -/
theorem terminal_states_amended (s : Store) (now : Int) (j : Job) (out err : String)
    (hn : (s.jobs.map Job.id).Nodup) (hj : j ∈ s.jobs)
    (hterm : j.state = JobState.completed ∨ j.state = JobState.dead) :
    ((find_next_job now s).2.jobs.find? (fun x => x.id == j.id) = some j) ∧
    ((find_next_job now s).1 ≠ some (claimUpdate now j)) ∧
    (j.state = JobState.completed → retry_dead_job now j.id s = (false, s)) ∧
    ((log_job_success now j.id out s).jobs.find? (fun x => x.id == j.id) =
      some { j with state := .completed, output := some out, updated_at := now }) ∧
    (∃ j', (record_job_failure now j.id err s).jobs.find? (fun x => x.id == j.id) =
        some j' ∧ (j'.state = JobState.failed ∨ j'.state = JobState.dead) ∧
        j'.attempts = j.attempts + 1) := by
  have hnotelig : ∀ j0, j0 ∈ s.jobs → eligible now j0 = true → j0.id ≠ j.id := by
    intro j0 hmem hel hc
    have heq : j0 = j := eq_of_mem_of_id_eq s.jobs j0 j hn hmem hj hc
    rcases eligible_state now j0 hel with h | h <;>
      rcases hterm with ht | ht <;>
      rw [heq, ht] at h <;> exact JobState.noConfusion h
  have hfix := find?_id_of_mem s.jobs j hn hj
  refine ⟨?_, ?_, ?_, ?_, ?_⟩
  · cases hsel : selectBest (s.jobs.filter (eligible now)) with
    | none =>
      have h2 : (find_next_job now s).2 = s := by unfold find_next_job; rw [hsel]
      rw [h2, hfix]
    | some j0 =>
      have h2 : (find_next_job now s).2.jobs =
          s.jobs.map (fun x => if x.id == j0.id then claimUpdate now x else x) := by
        unfold find_next_job; rw [hsel]
      have hmem := List.mem_filter.mp (selectBest_mem _ _ hsel)
      have hq : ∀ x : Job,
          ((if x.id == j0.id then claimUpdate now x else x).id == j.id) =
            (x.id == j.id) := by
        intro x; split <;> rfl
      have hng : ¬((j.id == j0.id) = true) := fun hc =>
        hnotelig j0 hmem.1 hmem.2 (eq_of_beq hc).symm
      rw [h2, find?_map_comm _ _ _ hq, hfix]
      simp only [Option.map_some']
      rw [if_neg hng]
  · intro hc
    cases hsel : selectBest (s.jobs.filter (eligible now)) with
    | none =>
      have h1 : (find_next_job now s).1 = none := by unfold find_next_job; rw [hsel]
      rw [h1] at hc
      exact Option.noConfusion hc
    | some j0 =>
      have h1 : (find_next_job now s).1 = some (claimUpdate now j0) := by
        unfold find_next_job; rw [hsel]
      rw [h1] at hc
      have hceq : claimUpdate now j0 = claimUpdate now j := Option.some.inj hc
      have hid : (claimUpdate now j0).id = (claimUpdate now j).id :=
        congrArg Job.id hceq
      have hmem := List.mem_filter.mp (selectBest_mem _ _ hsel)
      exact hnotelig j0 hmem.1 hmem.2 hid
  · intro hcomp
    have hnp : ∀ x ∈ s.jobs, (x.id == j.id && x.state == JobState.dead) = false := by
      intro x hx
      by_cases hid : (x.id == j.id) = true
      · have hxj : x = j :=
          eq_of_mem_of_id_eq s.jobs x j hn hx hj (eq_of_beq hid)
        rw [hxj, hcomp]
        exact Bool.and_false _
      · rw [Bool.eq_false_iff.mpr hid]
        rfl
    have hcount : List.countP
        (fun x => x.id == j.id && x.state == JobState.dead) s.jobs = 0 :=
      List.countP_eq_zero.mpr (fun a ha => Bool.eq_false_iff.mp (hnp a ha))
    have hbool : (retry_dead_job now j.id s).1 = false := by
      show decide (List.countP
        (fun x => x.id == j.id && x.state == JobState.dead) s.jobs > 0) = false
      rw [hcount]
      rfl
    have hjobs : (retry_dead_job now j.id s).2 = s := by
      show { s with jobs := _ } = s
      rw [map_id_of_not_hit _ _ _ hnp]
    rw [Prod.ext_iff]
    exact ⟨hbool, hjobs⟩
  · have hq : ∀ x : Job,
        ((if x.id == j.id then
            { x with state := JobState.completed, output := some out,
                     updated_at := now }
          else x).id == j.id) = (x.id == j.id) := by
      intro x; split <;> rfl
    show (s.jobs.map _).find? _ = _
    rw [find?_map_comm _ _ _ hq, hfix]
    simp only [Option.map_some']
    rw [if_pos (beq_self_eq_true _)]
  · refine ⟨failUpdate now (j.attempts + 1) j.max_retries
      (get_config s "backoff_base" 2) err j, ?_, ?_, ?_⟩
    · exact record_job_failure_find? s now j.id err j hfix
    · unfold failUpdate
      split
      · exact Or.inr rfl
      · exact Or.inl rfl
    · unfold failUpdate
      split <;> rfl

/-- Witness for C3's amended theorem at the store holding only the dead
job `jd`. -/
theorem terminal_states_amended_witness :
    ((Sdead.jobs.map Job.id).Nodup) ∧ (Jdead ∈ Sdead.jobs) ∧
    (Jdead.state = JobState.completed ∨ Jdead.state = JobState.dead) ∧
    (((find_next_job 21 Sdead).2.jobs.find? (fun x => x.id == Jdead.id) = some Jdead) ∧
     ((find_next_job 21 Sdead).1 ≠ some (claimUpdate 21 Jdead)) ∧
     (Jdead.state = JobState.completed →
       retry_dead_job 21 Jdead.id Sdead = (false, Sdead)) ∧
     ((log_job_success 21 Jdead.id "late" Sdead).jobs.find?
         (fun x => x.id == Jdead.id) =
       some { Jdead with state := .completed, output := some "late",
                         updated_at := 21 }) ∧
     (∃ j', (record_job_failure 21 Jdead.id "late2" Sdead).jobs.find?
         (fun x => x.id == Jdead.id) = some j' ∧
         (j'.state = JobState.failed ∨ j'.state = JobState.dead) ∧
         j'.attempts = Jdead.attempts + 1)) :=
  ⟨by decide, by decide, by decide,
   terminal_states_amended Sdead 21 Jdead "late" "late2"
     (by decide) (by decide) (by decide)⟩

/-! ## C5: mutual exclusion of concurrent claims

The claim query is a single `UPDATE ... WHERE id = (SELECT ...)` inside
one transaction, so under the storage engine's isolation each claim is
one atomic step on the shared store; any concurrent execution of N
claim calls is therefore a serialization of N such steps. -/

/-- N successive atomic claim calls, collecting the returned jobs. -/
def claimN (now : Int) : Nat → Store → List Job × Store
  | 0, s => ([], s)
  | n + 1, s =>
    match (find_next_job now s).1 with
    | none => claimN now n (find_next_job now s).2
    | some j => (j :: (claimN now n (find_next_job now s).2).1,
                 (claimN now n (find_next_job now s).2).2)

theorem map_id_comp (l : List Job) (f : Job → Job) (h : ∀ x, (f x).id = x.id) :
    (l.map f).map Job.id = l.map Job.id := by
  induction l with
  | nil => rfl
  | cons x rest ih => simp only [List.map_cons, h, ih]

theorem claim_ids_preserved (s : Store) (now : Int) :
    (find_next_job now s).2.jobs.map Job.id = s.jobs.map Job.id := by
  cases hsel : selectBest (s.jobs.filter (eligible now)) with
  | none =>
    have h : (find_next_job now s).2 = s := by unfold find_next_job; rw [hsel]
    rw [h]
  | some j0 =>
    have h : (find_next_job now s).2.jobs =
        s.jobs.map (fun x => if x.id == j0.id then claimUpdate now x else x) := by
      unfold find_next_job; rw [hsel]
    rw [h]
    exact map_id_comp _ _ (fun x => by unfold claimUpdate; split <;> rfl)

theorem claim_returns_eligible (s : Store) (now : Int) (j : Job)
    (ho : (find_next_job now s).1 = some j) :
    ∃ j0, j0 ∈ s.jobs ∧ eligible now j0 = true ∧ j = claimUpdate now j0 := by
  cases hsel : selectBest (s.jobs.filter (eligible now)) with
  | none =>
    have h1 : (find_next_job now s).1 = none := by unfold find_next_job; rw [hsel]
    rw [h1] at ho
    exact Option.noConfusion ho
  | some j0 =>
    have h1 : (find_next_job now s).1 = some (claimUpdate now j0) := by
      unfold find_next_job; rw [hsel]
    rw [h1] at ho
    have hmem := List.mem_filter.mp (selectBest_mem _ _ hsel)
    exact ⟨j0, hmem.1, hmem.2, (Option.some.inj ho).symm⟩

theorem claim_sets_processing (s : Store) (now : Int) (j : Job)
    (ho : (find_next_job now s).1 = some j) :
    ∀ x ∈ (find_next_job now s).2.jobs, x.id = j.id →
      x.state = JobState.processing := by
  cases hsel : selectBest (s.jobs.filter (eligible now)) with
  | none =>
    have h1 : (find_next_job now s).1 = none := by unfold find_next_job; rw [hsel]
    rw [h1] at ho
    exact Option.noConfusion ho
  | some j0 =>
    have h1 : (find_next_job now s).1 = some (claimUpdate now j0) := by
      unfold find_next_job; rw [hsel]
    have h2 : (find_next_job now s).2.jobs =
        s.jobs.map (fun x => if x.id == j0.id then claimUpdate now x else x) := by
      unfold find_next_job; rw [hsel]
    rw [h1] at ho
    have hj : j = claimUpdate now j0 := (Option.some.inj ho).symm
    intro x hx hxid
    rw [h2] at hx
    rcases List.mem_map.mp hx with ⟨y, hy, hxy⟩
    by_cases hg : (y.id == j0.id) = true
    · rw [← hxy, if_pos hg]
      rfl
    · exfalso
      apply hg
      rw [if_neg hg] at hxy
      have hyid : y.id = j0.id := by
        rw [hxy, hxid, hj]
        rfl
      rw [hyid]
      exact beq_self_eq_true _

theorem claim_keeps_processing (s : Store) (now : Int) (id0 : String)
    (hp : ∀ x ∈ s.jobs, x.id = id0 → x.state = JobState.processing) :
    ∀ x ∈ (find_next_job now s).2.jobs, x.id = id0 →
      x.state = JobState.processing := by
  cases hsel : selectBest (s.jobs.filter (eligible now)) with
  | none =>
    have h : (find_next_job now s).2 = s := by unfold find_next_job; rw [hsel]
    rw [h]
    exact hp
  | some j0 =>
    have h2 : (find_next_job now s).2.jobs =
        s.jobs.map (fun x => if x.id == j0.id then claimUpdate now x else x) := by
      unfold find_next_job; rw [hsel]
    intro x hx hxid
    rw [h2] at hx
    rcases List.mem_map.mp hx with ⟨y, hy, hxy⟩
    by_cases hg : (y.id == j0.id) = true
    · rw [← hxy, if_pos hg]
      rfl
    · rw [if_neg hg] at hxy
      rw [← hxy]
      exact hp y hy (by rw [hxy]; exact hxid)

theorem eligible_claimUpdate (now now' : Int) (x : Job) :
    eligible now (claimUpdate now' x) = false := rfl

theorem countP_claim_update (l : List Job) (now : Int) (j0 : Job)
    (hn : (l.map Job.id).Nodup) (hmem : j0 ∈ l) (hel : eligible now j0 = true) :
    (l.map (fun x => if x.id == j0.id then claimUpdate now x else x)).countP
      (eligible now) + 1 = l.countP (eligible now) := by
  induction l with
  | nil => simp at hmem
  | cons x rest ih =>
    simp only [List.map_cons, List.nodup_cons] at hn
    simp only [List.map_cons, List.countP_cons]
    rcases List.mem_cons.mp hmem with hx | hx
    · have hguard : (x.id == j0.id) = true := by
        rw [hx]
        exact beq_self_eq_true _
      have htail : rest.map (fun y => if y.id == j0.id then claimUpdate now y else y)
          = rest := by
        apply map_id_of_not_hit
        intro y hy
        apply beq_eq_false_iff_ne.mpr
        intro hc
        have : y.id ∈ rest.map Job.id := List.mem_map_of_mem Job.id hy
        rw [hc, hx] at this
        exact hn.1 this
      have helx : eligible now x = true := by rw [← hx]; exact hel
      rw [if_pos hguard, htail, eligible_claimUpdate, helx]
      simp
    · have hguard : (x.id == j0.id) = false := by
        apply beq_eq_false_iff_ne.mpr
        intro hc
        have : j0.id ∈ rest.map Job.id := List.mem_map_of_mem Job.id hx
        rw [← hc] at this
        exact hn.1 this
      have hng : ¬((x.id == j0.id) = true) := by
        rw [hguard]
        exact Bool.false_ne_true
      rw [if_neg hng]
      have := ih hn.2 hx
      omega

theorem claim_none_iff (s : Store) (now : Int) :
    (find_next_job now s).1 = none ↔ s.jobs.countP (eligible now) = 0 := by
  rw [List.countP_eq_length_filter]
  cases hsel : selectBest (s.jobs.filter (eligible now)) with
  | none =>
    have h1 : (find_next_job now s).1 = none := by unfold find_next_job; rw [hsel]
    have h2 := (selectBest_eq_none _).mp hsel
    simp [h1, h2]
  | some j =>
    have h1 : (find_next_job now s).1 = some (claimUpdate now j) := by
      unfold find_next_job; rw [hsel]
    have h2 : s.jobs.filter (eligible now) ≠ [] := by
      intro he
      rw [(selectBest_eq_none _).mpr he] at hsel
      exact Option.noConfusion hsel
    simp only [h1]
    constructor
    · intro hc
      exact Option.noConfusion hc
    · intro hc
      exact absurd (List.length_eq_zero.mp hc) h2

theorem claim_count_step (s : Store) (now : Int) (j : Job)
    (hn : (s.jobs.map Job.id).Nodup)
    (ho : (find_next_job now s).1 = some j) :
    (find_next_job now s).2.jobs.countP (eligible now) + 1 =
      s.jobs.countP (eligible now) := by
  cases hsel : selectBest (s.jobs.filter (eligible now)) with
  | none =>
    have h1 : (find_next_job now s).1 = none := by unfold find_next_job; rw [hsel]
    rw [h1] at ho
    exact Option.noConfusion ho
  | some j0 =>
    have h2 : (find_next_job now s).2.jobs =
        s.jobs.map (fun x => if x.id == j0.id then claimUpdate now x else x) := by
      unfold find_next_job; rw [hsel]
    have hmem := List.mem_filter.mp (selectBest_mem _ _ hsel)
    rw [h2]
    exact countP_claim_update s.jobs now j0 hn hmem.1 hmem.2

theorem claimN_fresh (now : Int) (n : Nat) : ∀ (s : Store) (id0 : String),
    (∀ x ∈ s.jobs, x.id = id0 → x.state = JobState.processing) →
    ∀ r ∈ (claimN now n s).1, r.id ≠ id0 := by
  induction n with
  | zero =>
    intro s id0 hp r hr
    simp [claimN] at hr
  | succ n ih =>
    intro s id0 hp r hr
    cases ho : (find_next_job now s).1 with
    | none =>
      simp only [claimN, ho] at hr
      exact ih (find_next_job now s).2 id0 (claim_keeps_processing s now id0 hp) r hr
    | some j =>
      simp only [claimN, ho] at hr
      rcases List.mem_cons.mp hr with hr | hr
      · subst hr
        rcases claim_returns_eligible s now r ho with ⟨j0, hmem, hel, hj⟩
        intro hc
        have hpr : j0.state = JobState.processing := by
          apply hp j0 hmem
          rw [← hc, hj]
          rfl
        rcases eligible_state now j0 hel with h | h <;> rw [h] at hpr <;>
          exact JobState.noConfusion hpr
      · exact ih (find_next_job now s).2 id0
          (claim_keeps_processing s now id0 hp) r hr

/-- C5: under the serialization of atomic claim steps that the storage
engine's transaction isolation guarantees, N claim calls against a
store with pairwise-distinct job ids and at least N eligible jobs all
succeed and return N jobs with pairwise-distinct ids: no job is
returned to two callers and none is transitioned to PROCESSING by more
than one claim. -/
theorem claimNext_mutual_exclusion (s : Store) (now : Int) (n : Nat)
    (hn : (s.jobs.map Job.id).Nodup)
    (hM : n ≤ s.jobs.countP (eligible now)) :
    (claimN now n s).1.length = n ∧ ((claimN now n s).1.map Job.id).Nodup := by
  induction n generalizing s with
  | zero => simp [claimN]
  | succ n ih =>
    have hpos : 0 < s.jobs.countP (eligible now) :=
      lt_of_lt_of_le (Nat.succ_pos n) hM
    cases ho : (find_next_job now s).1 with
    | none =>
      exfalso
      have := (claim_none_iff s now).mp ho
      omega
    | some j =>
      have hids := claim_ids_preserved s now
      have hn' : ((find_next_job now s).2.jobs.map Job.id).Nodup := by
        rw [hids]; exact hn
      have hcount := claim_count_step s now j hn ho
      have hM' : n ≤ (find_next_job now s).2.jobs.countP (eligible now) := by
        omega
      have hrec := ih (find_next_job now s).2 hn' hM'
      have hproc := claim_sets_processing s now j ho
      have hfresh := claimN_fresh now n (find_next_job now s).2 j.id hproc
      simp only [claimN, ho]
      refine ⟨by simp [hrec.1], ?_⟩
      simp only [List.map_cons, List.nodup_cons]
      refine ⟨?_, hrec.2⟩
      intro hc
      rcases List.mem_map.mp hc with ⟨r, hr, hrid⟩
      exact hfresh r hr hrid

/-- A second pending job with higher priority than `J1`. -/
def J2 : Job :=
  { id := "j2", command := "echo hello", state := .pending, attempts := 0,
    max_retries := 3, created_at := 1, updated_at := 1, retry_at := none,
    run_at := some 0, output := none, error := none, priority := 5,
    timeout := 60 }

/-- A store with the two eligible pending jobs `J1` and `J2`. -/
def S2 : Store :=
  { jobs := [J1, J2], config := fun _ => none, jobs_completed := 0,
    jobs_failed := 0 }

/-- Witness for C5: two serialized claims against two eligible jobs
return two jobs with distinct ids. -/
theorem claimNext_mutual_exclusion_witness :
    ((S2.jobs.map Job.id).Nodup) ∧
    (2 ≤ S2.jobs.countP (eligible 10)) ∧
    ((claimN 10 2 S2).1.length = 2 ∧ ((claimN 10 2 S2).1.map Job.id).Nodup) :=
  ⟨by decide, by decide, claimNext_mutual_exclusion S2 10 2 (by decide) (by decide)⟩

end Queuectl
